import Mathlib

/-!
Verification of the sshControl connection-orchestration core.

The definitions below are a shallow embedding of the Go sources:
  - config/config.go       : catalog data model and lookups
  - cmd/direct.go          : parseDirectConnection (token grammar [user@]host[:port])
  - cmd multi-host engine  : expandTagsToHosts, ConnectMultiple, executeOnHost,
                             ExecuteCommandWithOutput
  - cmd ssh engine         : createAuthMethods, createSSHConfigWithContext, dial
  - cmd port-forward engine: PortForwardSession counters

Side-effectful collaborators (network dial outcomes, the file system, the
remote peer) are modelled as explicit environment records passed in, so every
definition is executable and the theorems quantify over all environments.
-/

namespace SSHControl

/-- config.User: a configured user with ordered private-key paths. -/
structure User where
  name : String
  sshKeys : List String
deriving Repr, DecidableEq

/-- config.JumpHost: a configured relay (jump) host. -/
structure JumpHost where
  name : String
  host : String
  user : String
  port : Int
deriving Repr, DecidableEq

/-- config.Host: one catalog entry (name, address, port, tags). -/
structure Host where
  name : String
  host : String
  port : Int
  tags : List String
deriving Repr, DecidableEq

/-- config.ConfigFile: the catalog plus the global settings the core reads. -/
structure ConfigFile where
  hosts : List Host
  users : List User
  autoCreate : Bool
deriving Repr, DecidableEq

/-- config.ConfigFile.FindHost: first catalog entry with the given name. -/
def ConfigFile.FindHost (c : ConfigFile) (name : String) : Option Host :=
  c.hosts.find? (fun h => h.name == name)

/-- config.ConfigFile.FindHostByAddress: first catalog entry with the given address. -/
def ConfigFile.FindHostByAddress (c : ConfigFile) (address : String) : Option Host :=
  c.hosts.find? (fun h => h.host == address)

/-- config.ConfigFile.FindUser: first configured user with the given name. -/
def ConfigFile.FindUser (c : ConfigFile) (name : String) : Option User :=
  c.users.find? (fun u => u.name == name)

/-- strings.ToLower restricted to ASCII, character by character, as the tag
comparison uses it. -/
def goToLower (s : String) : String := ⟨s.data.map Char.toLower⟩

/-- config.ConfigFile.FindHostsByTag: all catalog entries carrying the tag
(case-insensitive, one occurrence per host). -/
def ConfigFile.FindHostsByTag (c : ConfigFile) (tag : String) : List Host :=
  c.hosts.filter (fun h => h.tags.any (fun t => goToLower t == goToLower tag))

/-- strings.HasPrefix for the one-character group marker. -/
def hasAtPrefix (s : String) : Bool :=
  match s.data with
  | '@' :: _ => true
  | _ => false

/-- strings.TrimPrefix for the one-character group marker. -/
def trimAtPrefix (s : String) : String :=
  if hasAtPrefix s then ⟨s.data.drop 1⟩ else s

/-- strings.HasPrefix for the tilde-slash home marker. -/
def hasTildePrefix (s : String) : Bool :=
  match s.data with
  | '~' :: '/' :: _ => true
  | _ => false

/-- config.ExpandHomePath: expands a leading tilde-slash against the home
directory (home plus the path after the tilde). -/
def expandHomePath (home : String) (path : String) : String :=
  if hasTildePrefix path then home ++ (⟨path.data.drop 1⟩ : String) else path

/-! ### The token grammar of parseDirectConnection

cmd/direct.go matches the token against the Go regular expression
  caret (?:([^@]+)@)? ([^:]+) (?::(\d+))? dollar
with leftmost-first (preference-order) semantics.  The three capture groups
are computed below: the optional user group, when it matches at all, consumes
exactly the characters before the first at-sign; the host group consumes the
characters up to the first colon (or the rest); the optional port group must
consume the whole remainder as decimal digits. -/

/-- Splits a character list at the first occurrence of c, returning the parts
before and after it, or none when c does not occur. -/
def splitAtFirst (c : Char) : List Char → Option (List Char × List Char)
  | [] => none
  | x :: xs =>
    if x = c then some ([], xs)
    else
      match splitAtFirst c xs with
      | some (pre, post) => some (x :: pre, post)
      | none => none

/-- The capture groups of the token regular expression; absent optional groups
are the empty string, exactly as Go's FindStringSubmatch reports them. -/
structure RegexGroups where
  user : List Char
  host : List Char
  portStr : List Char
deriving Repr, DecidableEq

/-- Matches the suffix grammar host[:port]: the host group is the maximal
colon-free prefix and the optional port group must be one or more digits
covering the whole remainder. -/
def matchHostPort (t : List Char) : Option (List Char × List Char) :=
  match splitAtFirst ':' t with
  | none => if t.isEmpty then none else some (t, [])
  | some (h, r) =>
    if h.isEmpty then none
    else if r.isEmpty then none
    else if r.all Char.isDigit then some (h, r) else none

/-- The full regular-expression match of cmd/direct.go: the optional user
group is preferred when a nonempty at-prefixed user can lead to a match of
the remaining host[:port] grammar; otherwise the whole token is matched as
host[:port] alone. -/
def findStringSubmatch (s : List Char) : Option RegexGroups :=
  match splitAtFirst '@' s with
  | some (u, rest) =>
    if u.isEmpty then
      (matchHostPort s).map fun hp => ⟨[], hp.1, hp.2⟩
    else
      match matchHostPort rest with
      | some hp => some ⟨u, hp.1, hp.2⟩
      | none => (matchHostPort s).map fun hp => ⟨[], hp.1, hp.2⟩
  | none => (matchHostPort s).map fun hp => ⟨[], hp.1, hp.2⟩

/-- Numeric value of a digit string, as strconv.Atoi computes it for
all-digit input (leading zeros allowed). -/
def digitsToNat (p : List Char) : Nat :=
  p.foldl (fun a c => a * 10 + (c.toNat - '0'.toNat)) 0

/-- cmd/direct.go parsedHost: the result of parsing a direct-connection token. -/
structure ParsedHost where
  parsedUser : String
  hostname : String
  port : Int
deriving Repr, DecidableEq

/-- cmd/direct.go parseDirectConnection.  The pair mirrors the Go return
(pointer, error): exactly one side is set.  systemUser models the result of
user.Current (none when that call fails, in which case the source falls back
to the literal root). -/
def parseDirectConnection (input : String) (effectiveUser : Option User)
    (systemUser : Option String) : Option ParsedHost × Option String :=
  match findStringSubmatch input.data with
  | none => (none, some ("formato invalido: " ++ input))
  | some g =>
    let parsedUser : String :=
      if g.user.isEmpty then
        match effectiveUser with
        | some u => u.name
        | none =>
          match systemUser with
          | some n => n
          | none => "root"
      else ⟨g.user⟩
    if g.portStr.isEmpty then
      if g.host.isEmpty then (none, some "hostname nao pode ser vazio")
      else (some ⟨parsedUser, ⟨g.host⟩, 22⟩, none)
    else
      let port : Int := (digitsToNat g.portStr : Nat)
      if port < 1 ∨ 65535 < port then (none, some ("porta invalida: " ++ ⟨g.portStr⟩))
      else if g.host.isEmpty then (none, some "hostname nao pode ser vazio")
      else (some ⟨parsedUser, ⟨g.host⟩, port⟩, none)

example : parseDirectConnection "ubuntu@10.0.0.5:2222" none none
    = (some ⟨"ubuntu", "10.0.0.5", 2222⟩, none) := by decide
example : (parseDirectConnection "10.0.0.5" (some ⟨"ops", []⟩) none).1
    = some ⟨"ops", "10.0.0.5", 22⟩ := by decide
example : (parseDirectConnection "host:abc" none none).1 = none := by decide
example : (parseDirectConnection "host:0" none none).1 = none := by decide
example : (parseDirectConnection "host:70000" none none).1 = none := by decide
example : (parseDirectConnection ":22" none none).1 = none := by decide
example : (parseDirectConnection "" none none).1 = none := by decide

/-! ### Tag-group expansion (expandTagsToHosts) -/

/-- Inner loop of expandTagsToHosts for a tag's member list: appends each
member's name to the expanded list unless it was already seen. -/
def addTagHosts : List Host → List String → List String → List String × List String
  | [], seen, expanded => (seen, expanded)
  | h :: rest, seen, expanded =>
    if h.name ∈ seen then addTagHosts rest seen expanded
    else addTagHosts rest (h.name :: seen) (expanded ++ [h.name])

/-- The loop of expandTagsToHosts over the raw arguments, threading the
already-seen set, the expanded list, the tags found, and the warnings emitted
for tags with no members (the source prints those to standard error). -/
def expandTagsToHostsAux (cfg : ConfigFile) :
    List String → List String → List String → List String → List String →
    List String × List String × List String
  | [], _, expanded, tags, warns => (expanded, tags, warns)
  | arg :: rest, seen, expanded, tags, warns =>
    if hasAtPrefix arg then
      let tag := trimAtPrefix arg
      let hosts := cfg.FindHostsByTag tag
      if hosts.isEmpty then
        expandTagsToHostsAux cfg rest seen expanded (tags ++ [tag]) (warns ++ [tag])
      else
        let se := addTagHosts hosts seen expanded
        expandTagsToHostsAux cfg rest se.1 se.2 (tags ++ [tag]) warns
    else
      if arg ∈ seen then expandTagsToHostsAux cfg rest seen expanded tags warns
      else expandTagsToHostsAux cfg rest (arg :: seen) (expanded ++ [arg]) tags warns

/-- expandTagsToHosts of the multi-host engine: expands tag-marked arguments
through the catalog, deduplicates by resolved name in order of first
appearance, and records the tags found plus a warning per empty tag.  The Go
function returns the first two components; the warning list models its
standard-error output. -/
def expandTagsToHosts (cfg : ConfigFile) (hostArgs : List String) :
    List String × List String × List String :=
  expandTagsToHostsAux cfg hostArgs [] [] [] []

/-! ### Session engine (ExecuteCommandWithOutput) -/

/-- Outcome of session.Run as the Go ssh library reports it: nil error, an
ssh.ExitError carrying the remote exit status, or another (transport) error. -/
inductive RunOutcome
  | ok
  | exitError (status : Int)
  | otherError (msg : String)
deriving Repr, DecidableEq

/-- The environment one remote-command session observes: the outcome of each
fallible step of ExecuteCommandWithOutput plus the bytes the remote peer wrote
to each sink. -/
structure SessionEnv where
  configErr : Option String
  dialErr : Option String
  sessionErr : Option String
  stdoutData : String
  stderrData : String
  run : RunOutcome
deriving Repr, DecidableEq

/-- ExecuteCommandWithOutput: returns (combined output, exit code, error).
Transport-stage failures (config creation, dial, session creation) return
status -1 with an error; a remote exit (clean or nonzero) returns the observed
status with no error; any other run failure returns -1 with an error.  The
best-effort public-key installation between dial and session creation has its
result discarded by the source and is not modelled. -/
def executeCommandWithOutput (env : SessionEnv) : String × Int × Option String :=
  match env.configErr with
  | some e => ("", -1, some ("erro ao criar configuracao SSH: " ++ e))
  | none =>
  match env.dialErr with
  | some e => ("", -1, some ("erro ao conectar: " ++ e))
  | none =>
  match env.sessionErr with
  | some e => ("", -1, some ("erro ao criar sessao: " ++ e))
  | none =>
    let combined := env.stdoutData ++ (if env.stderrData.length > 0 then env.stderrData else "")
    match env.run with
    | .ok => (combined, 0, none)
    | .exitError st => (combined, st, none)
    | .otherError e => (combined, -1, some ("erro ao executar comando: " ++ e))

/-! ### Fan-out executor (ConnectMultiple / executeOnHost) -/

/-- cmd HostResult: the write-once result one fan-out worker publishes.
Defaults are the Go zero values of the fields a branch does not set. -/
structure HostResult where
  host : String
  success : Bool
  output : String := ""
  error : String := ""
  exitCode : Int := 0
  shouldAutoCreate : Bool := false
  hostname : String := ""
  port : Int := 0
deriving Repr, DecidableEq

/-- The explicit-user branch of executeOnHost: an explicit user parsed out of
the token that differs from the effective user replaces the user name and
triggers a secondary catalog lookup for that user's own keys; when that user
is unknown to the catalog the key list becomes empty. -/
def resolveUserAndKeys (cfg : ConfigFile) (home : String) (effectiveUser : User)
    (ph : ParsedHost) : String × List String :=
  if ph.parsedUser ≠ "" ∧ ph.parsedUser ≠ effectiveUser.name then
    match cfg.FindUser ph.parsedUser with
    | some u => (ph.parsedUser, u.sshKeys.map (expandHomePath home))
    | none => (ph.parsedUser, [])
  else (effectiveUser.name, effectiveUser.sshKeys.map (expandHomePath home))

/-- The tail of executeOnHost: runs the command through the session engine
(the worker's world is the per-token session environment) and builds the
worker's HostResult, appending the password hints on failure. -/
def runHostCommand (world : String → SessionEnv) (hostArg : String)
    (sshKeys : List String) (hostname : String) (port : Int)
    (shouldAutoCreate : Bool) (password : String) (askPassword : Bool) : HostResult :=
  match executeCommandWithOutput (world hostArg) with
  | (out, code, some msg) =>
    { host := hostArg, success := false, output := out,
      error :=
        if !askPassword && password = "" && sshKeys.isEmpty then
          msg ++ " (DICA: Use a opcao -a ou --ask-password para fornecer senha)"
        else if !askPassword && password = "" && !sshKeys.isEmpty then
          msg ++ " (DICA: Se a chave SSH nao estiver instalada, use -a para fornecer senha)"
        else msg,
      exitCode := code }
  | (out, code, none) =>
    { host := hostArg, success := true, output := out, exitCode := code,
      shouldAutoCreate := shouldAutoCreate, hostname := hostname, port := port }

/-- executeOnHost: one fan-out worker.  Resolves the token against the catalog
first, then as a direct-connection string; a parse failure is captured as a
failed result; otherwise the command runs through the session engine. -/
def executeOnHost (cfg : ConfigFile) (home : String) (world : String → SessionEnv)
    (effectiveUser : User) (systemUser : Option String)
    (password : String) (askPassword : Bool) (hostArg : String) : HostResult :=
  match cfg.FindHost hostArg with
  | some host =>
    runHostCommand world hostArg (effectiveUser.sshKeys.map (expandHomePath home))
      host.host host.port false password askPassword
  | none =>
    match parseDirectConnection hostArg (some effectiveUser) systemUser with
    | (none, e) =>
      { host := hostArg, success := false, error := "Formato invalido: " ++ e.getD "" }
    | (some ph, _) =>
      let uk := resolveUserAndKeys cfg home effectiveUser ph
      let shouldAC := cfg.autoCreate && (cfg.FindHostByAddress ph.hostname).isNone
      runHostCommand world hostArg uk.2 ph.hostname ph.port shouldAC password askPassword

/-- Whether a token resolves: it names a catalog entry or parses as a
direct-connection string. -/
def hostResolves (cfg : ConfigFile) (effectiveUser : User) (systemUser : Option String)
    (hostArg : String) : Bool :=
  (cfg.FindHost hostArg).isSome ||
    (parseDirectConnection hostArg (some effectiveUser) systemUser).1.isSome

/-- Whether one fan-out worker's whole pipeline (resolution, dial, command
execution) succeeds for a token under a given world. -/
def hostSucceeds (cfg : ConfigFile) (world : String → SessionEnv) (effectiveUser : User)
    (systemUser : Option String) (hostArg : String) : Bool :=
  hostResolves cfg effectiveUser systemUser hostArg &&
    (executeCommandWithOutput (world hostArg)).2.2.isNone

/-- ConnectMultiple's aggregation: one worker per expanded token, each
publishing exactly one HostResult on the shared channel.  The completion
order of the workers is the order argument, an arbitrary permutation of the
expanded token list; the collected list is the results in that order. -/
def connectMultipleResults (cfg : ConfigFile) (home : String)
    (world : String → SessionEnv) (effectiveUser : User) (systemUser : Option String)
    (password : String) (askPassword : Bool) (order : List String) : List HostResult :=
  order.map (executeOnHost cfg home world effectiveUser systemUser password askPassword)

/-! ### Transport dialer through a relay (dial with a jump host) -/

/-- Which sockets the dial of a relayed connection currently holds open:
the relay (jump host) client connection and the logical channel to the
target opened through it. -/
structure DialState where
  jumpOpen : Bool
  connOpen : Bool
deriving Repr, DecidableEq

/-- jumpClient.Close. -/
def closeJump (st : DialState) : DialState := { st with jumpOpen := false }

/-- conn.Close on the logical channel. -/
def closeConn (st : DialState) : DialState := { st with connOpen := false }

/-- A closed relay connection accepts no further logical channels. -/
def canOpenChannel (st : DialState) : Bool := st.jumpOpen

/-- Outcomes of the three fallible steps of the relayed dial: the dial to the
jump host, the logical channel to the target through it, and the target's
handshake over that channel. -/
structure DialEnv where
  jumpDialOk : Bool
  targetChannelOk : Bool
  handshakeOk : Bool
deriving Repr, DecidableEq

/-- The jump-host path of dial: returns the error (none on success) and the
final resource state, closing exactly what the source closes on each failure
path (the logical channel, then the relay connection). -/
def dialViaJump (env : DialEnv) : Option String × DialState :=
  let st0 : DialState := { jumpOpen := false, connOpen := false }
  if env.jumpDialOk then
    let st1 : DialState := { st0 with jumpOpen := true }
    if env.targetChannelOk then
      let st2 : DialState := { st1 with connOpen := true }
      if env.handshakeOk then (none, st2)
      else (some "erro ao criar conexao SSH", closeJump (closeConn st2))
    else (some "erro ao conectar ao host atraves do Jump Host", closeJump st1)
  else (some "erro ao conectar ao Jump Host", st0)

/-! ### SSH client configuration (host-key policy and auth methods) -/

/-- One candidate authentication method offered to the remote peer. -/
inductive AuthMethod
  | publicKeys (signers : List String)
  | agent
  | password (pw : String)
  | passwordCallback
deriving Repr, DecidableEq

/-- The host-key verification policy of a client configuration. -/
inductive HostKeyPolicy
  | insecureIgnoreHostKey
  | fixedHostKey (key : String)
deriving Repr, DecidableEq

/-- Whether a presented server host key is accepted under a policy. -/
def hostKeyAccepts : HostKeyPolicy → String → Bool
  | .insecureIgnoreHostKey, _ => true
  | .fixedHostKey k, presented => presented == k

/-- ssh.ClientConfig as the dialer builds it. -/
structure ClientConfig where
  user : String
  auth : List AuthMethod
  hostKeyCallback : HostKeyPolicy
deriving Repr, DecidableEq

/-- The file system and agent environment the auth builder reads. -/
structure AuthEnv where
  readFile : String → Option String
  parsePrivateKey : String → Option String
  agentAvailable : Bool

/-- SSHConnection: the connection parameters of the current engine. -/
structure SSHConnection where
  user : String
  host : String
  port : Int
  sshKeys : List String
  password : String
  jumpHost : Option JumpHost
  jumpHostSSHKeys : List String
  command : String
  proxyEnabled : Bool
  proxyAddress : String
  proxyPort : Int
  interactivePasswordAllowed : Bool

/-- createAuthMethods: all readable, parseable key files are collected into a
single combined public-key attempt; the agent contributes an attempt when its
socket is reachable; a preset password contributes a direct attempt, else an
interactive callback attempt is added only when interactive prompting is
allowed for this invocation. -/
def createAuthMethods (env : AuthEnv) (s : SSHConnection)
    (sshKeyPaths : List String) : List AuthMethod :=
  let signers := sshKeyPaths.filterMap (fun p =>
    if p = "" then none else (env.readFile p).bind env.parsePrivateKey)
  (if signers.isEmpty then [] else [AuthMethod.publicKeys signers])
    ++ (if env.agentAvailable then [AuthMethod.agent] else [])
    ++ (if s.password ≠ "" then [AuthMethod.password s.password]
        else if s.interactivePasswordAllowed then [AuthMethod.passwordCallback] else [])

/-- createSSHConfigWithContext of the current engine: builds the target's
client configuration (the context argument only shapes prompt text and is
not modelled).  The source never returns an error here. -/
def createSSHConfigWithContext (env : AuthEnv) (s : SSHConnection) : ClientConfig :=
  { user := s.user,
    auth := createAuthMethods env s s.sshKeys,
    hostKeyCallback := HostKeyPolicy.insecureIgnoreHostKey }

/-- The jump-host client configuration dial builds inline for the relay leg,
from the jump host's own user and key list. -/
def jumpClientConfig (env : AuthEnv) (s : SSHConnection) (jh : JumpHost) : ClientConfig :=
  { user := jh.user,
    auth := createAuthMethods env s s.jumpHostSSHKeys,
    hostKeyCallback := HostKeyPolicy.insecureIgnoreHostKey }

/-- The key-file step of the legacy createSSHConfigWithContext (cmd/ssh.go):
a configured but unreadable or unparseable key file aborts with an error
(none here). -/
def legacyKeyAuth (env : AuthEnv) (sshKey : String) : Option (List AuthMethod) :=
  if sshKey = "" then some []
  else
    match env.readFile sshKey with
    | none => none
    | some content =>
      match env.parsePrivateKey content with
      | none => none
      | some signer => some [AuthMethod.publicKeys [signer]]

/-- createSSHConfigWithContext of the legacy single-key engine (cmd/ssh.go):
fails when the key-file step fails; otherwise the configuration always ends
with an interactive password callback. -/
def legacyCreateSSHConfig (env : AuthEnv) (user : String) (sshKey : String) :
    Option ClientConfig :=
  match legacyKeyAuth env sshKey with
  | none => none
  | some ka =>
    some { user := user,
           auth := ka ++ (if env.agentAvailable then [AuthMethod.agent] else [])
                      ++ [AuthMethod.passwordCallback],
           hostKeyCallback := HostKeyPolicy.insecureIgnoreHostKey }

/-! ### Relay (port-forward) session counters -/

/-- PortForwardSession's four shared counters. -/
structure Counters where
  activeConns : Int
  totalConns : Int
  bytesSent : Int
  bytesReceived : Int
deriving Repr, DecidableEq

/-- The atomic single-field counter operations the relay workers perform:
acceptConnections increments totalConns then activeConns per accepted
connection; each copy direction adds its byte count on completion; the
worker's deferred cleanup decrements activeConns by one. -/
inductive CounterOp
  | incTotal
  | incActive
  | decActive
  | addSent (n : Int)
  | addReceived (n : Int)
deriving Repr, DecidableEq

/-- One atomic AddInt64 call on the shared counters. -/
def applyOp (c : Counters) : CounterOp → Counters
  | .incTotal => { c with totalConns := c.totalConns + 1 }
  | .incActive => { c with activeConns := c.activeConns + 1 }
  | .decActive => { c with activeConns := c.activeConns - 1 }
  | .addSent n => { c with bytesSent := c.bytesSent + n }
  | .addReceived n => { c with bytesReceived := c.bytesReceived + n }

/-- A run of the relay: the interleaved sequence of atomic counter operations
all workers perform, applied in order. -/
def runOps (c : Counters) (ops : List CounterOp) : Counters := ops.foldl applyOp c

/-! ## Helper lemmas -/

theorem isEmpty_false_of_ne_nil {α : Type} {l : List α} (h : l ≠ []) :
    l.isEmpty = false := by
  cases l with
  | nil => exact absurd rfl h
  | cons a t => rfl

theorem splitAtFirst_append (c : Char) (u r : List Char) (hu : c ∉ u) :
    splitAtFirst c (u ++ c :: r) = some (u, r) := by
  induction u with
  | nil => simp [splitAtFirst]
  | cons x xs ih =>
    simp only [List.mem_cons, not_or] at hu
    have hx : ¬ x = c := fun hh => hu.1 hh.symm
    simp [splitAtFirst, hx, ih hu.2]

theorem splitAtFirst_eq_none (c : Char) (l : List Char) (h : c ∉ l) :
    splitAtFirst c l = none := by
  induction l with
  | nil => rfl
  | cons x xs ih =>
    simp only [List.mem_cons, not_or] at h
    have hx : ¬ x = c := fun hh => h.1 hh.symm
    simp [splitAtFirst, hx, ih h.2]

theorem string_mk_ne_empty {l : List Char} (h : l ≠ []) : (⟨l⟩ : String) ≠ "" :=
  fun hc => h (congrArg String.data hc)

/-! ## Claim theorems -/

/-- C2: every valid token of the form user at-sign host colon port parses to
exactly the three captured groups, and a token consisting of a host alone
parses with the user defaulted to the effective user (falling back to the
system identity, then to root) and the port defaulted to 22. -/
theorem parseDirectConnection_valid_tokens (eu : Option User) (su : Option String) :
    (∀ u h p : List Char, u ≠ [] → '@' ∉ u → h ≠ [] → ':' ∉ h → p ≠ [] →
      p.all Char.isDigit → 1 ≤ digitsToNat p → digitsToNat p ≤ 65535 →
      parseDirectConnection ⟨u ++ '@' :: (h ++ ':' :: p)⟩ eu su
        = (some ⟨⟨u⟩, ⟨h⟩, (digitsToNat p : Nat)⟩, none))
    ∧ (∀ h : List Char, h ≠ [] → '@' ∉ h → ':' ∉ h →
      parseDirectConnection ⟨h⟩ eu su
        = (some ⟨(match eu with
                  | some usr => usr.name
                  | none =>
                    match su with
                    | some n => n
                    | none => "root"), ⟨h⟩, 22⟩, none)) := by
  constructor
  · intro u h p hu hua hh hhc hp hpd hlo hhi
    have hsu : splitAtFirst '@' (u ++ '@' :: (h ++ ':' :: p)) = some (u, h ++ ':' :: p) :=
      splitAtFirst_append '@' u _ hua
    have hsh : splitAtFirst ':' (h ++ ':' :: p) = some (h, p) :=
      splitAtFirst_append ':' h p hhc
    have hcond : ¬(((digitsToNat p : Nat) : Int) < 1 ∨ (65535 : Int) < ((digitsToNat p : Nat) : Int)) := by
      omega
    unfold parseDirectConnection findStringSubmatch matchHostPort
    simp [hsu, hsh, isEmpty_false_of_ne_nil hu, isEmpty_false_of_ne_nil hh,
      isEmpty_false_of_ne_nil hp, hpd, hcond]
    omega
  · intro h hh hha hhc
    have hsu : splitAtFirst '@' h = none := splitAtFirst_eq_none '@' h hha
    have hsh : splitAtFirst ':' h = none := splitAtFirst_eq_none ':' h hhc
    unfold parseDirectConnection findStringSubmatch matchHostPort
    simp [hsu, hsh, isEmpty_false_of_ne_nil hh]

/-- C2 witness: the theorem applied to the concrete tokens
ubuntu at 10.0.0.5 colon 2222 and 10.0.0.5 alone. -/
theorem parseDirectConnection_valid_tokens_witness :
    parseDirectConnection ⟨"ubuntu".data ++ '@' :: ("10.0.0.5".data ++ ':' :: "2222".data)⟩
        none none
      = (some ⟨"ubuntu", "10.0.0.5", (digitsToNat "2222".data : Nat)⟩, none)
    ∧ parseDirectConnection ⟨"10.0.0.5".data⟩ none (some "sysuser")
      = (some ⟨"sysuser", "10.0.0.5", 22⟩, none) := by
  refine ⟨?_, ?_⟩
  · exact (parseDirectConnection_valid_tokens none none).1 "ubuntu".data "10.0.0.5".data
      "2222".data (by decide) (by decide) (by decide) (by decide) (by decide) (by decide)
      (by decide) (by decide)
  · exact (parseDirectConnection_valid_tokens none (some "sysuser")).2 "10.0.0.5".data
      (by decide) (by decide) (by decide)

theorem parse_none_iff_error (input : String) (eu : Option User) (su : Option String) :
    (parseDirectConnection input eu su).1 = none
      ↔ ((parseDirectConnection input eu su).2).isSome := by
  unfold parseDirectConnection
  cases hfind : findStringSubmatch input.data with
  | none => simp
  | some g =>
    by_cases hps : g.portStr.isEmpty <;> by_cases hhe : g.host.isEmpty <;>
      simp [hps, hhe] <;> split <;> simp

theorem parse_success_bounds (input : String) (eu : Option User) (su : Option String)
    (ph : ParsedHost) :
    (parseDirectConnection input eu su).1 = some ph →
      ph.hostname ≠ "" ∧ 1 ≤ ph.port ∧ ph.port ≤ 65535 := by
  unfold parseDirectConnection
  cases hfind : findStringSubmatch input.data with
  | none => simp
  | some g =>
    by_cases hps : g.portStr.isEmpty <;> by_cases hhe : g.host.isEmpty <;>
      simp [hps, hhe]
    · rintro rfl
      refine ⟨string_mk_ne_empty (by simpa [List.isEmpty_iff] using hhe), ?_, ?_⟩ <;>
        norm_num
    · split <;> simp
    · split
      · simp
      · rename_i hcond
        intro hph
        injection hph with hph
        subst hph
        refine ⟨string_mk_ne_empty (by simpa [List.isEmpty_iff] using hhe), ?_, ?_⟩ <;>
          (simp only [not_or] at hcond; simp; omega)

/-- C3: parseDirectConnection never returns a partial result (the parsed host
is present exactly when the error is absent), every successful parse has a
nonempty hostname and a port in the range 1 to 65535 (so malformed tokens
with an empty host or an out-of-range or non-numeric port always fail), and
the representative malformed tokens of each class are rejected. -/
theorem parseDirectConnection_malformed :
    (∀ (input : String) (eu : Option User) (su : Option String),
      (parseDirectConnection input eu su).1 = none
        ↔ ((parseDirectConnection input eu su).2).isSome)
    ∧ (∀ (input : String) (eu : Option User) (su : Option String) (ph : ParsedHost),
      (parseDirectConnection input eu su).1 = some ph →
        ph.hostname ≠ "" ∧ 1 ≤ ph.port ∧ ph.port ≤ 65535)
    ∧ (parseDirectConnection "host:abc" none none).1 = none
    ∧ (parseDirectConnection "host:0" none none).1 = none
    ∧ (parseDirectConnection "host:70000" none none).1 = none
    ∧ (parseDirectConnection "" none none).1 = none
    ∧ (parseDirectConnection ":22" none none).1 = none :=
  ⟨parse_none_iff_error, parse_success_bounds,
    by decide, by decide, by decide, by decide, by decide⟩

/-- C3 witness: the containment facts applied at the concrete tokens
host:abc (which fails) and h:2222 (which succeeds). -/
theorem parseDirectConnection_malformed_witness :
    ((parseDirectConnection "host:abc" none none).1 = none
      ↔ ((parseDirectConnection "host:abc" none none).2).isSome)
    ∧ ((ParsedHost.mk "sys" "h" 2222).hostname ≠ ""
        ∧ 1 ≤ (ParsedHost.mk "sys" "h" 2222).port
        ∧ (ParsedHost.mk "sys" "h" 2222).port ≤ 65535) :=
  ⟨parseDirectConnection_malformed.1 "host:abc" none none,
   parseDirectConnection_malformed.2.1 "h:2222" none (some "sys")
     (ParsedHost.mk "sys" "h" 2222) (by decide)⟩

theorem addTagHosts_invariant (hosts : List Host) (seen expanded : List String)
    (hnd : expanded.Nodup) (hsub : ∀ x ∈ expanded, x ∈ seen) :
    (addTagHosts hosts seen expanded).2.Nodup
    ∧ (∀ x ∈ (addTagHosts hosts seen expanded).2, x ∈ (addTagHosts hosts seen expanded).1) := by
  induction hosts generalizing seen expanded with
  | nil => exact ⟨hnd, hsub⟩
  | cons h rest ih =>
    by_cases hmem : h.name ∈ seen
    · simpa [addTagHosts, hmem] using ih seen expanded hnd hsub
    · have hnotin : h.name ∉ expanded := fun hx => hmem (hsub _ hx)
      have hnd' : (expanded ++ [h.name]).Nodup := by
        simp [List.nodup_append, hnd, hnotin]
      have hsub' : ∀ x ∈ expanded ++ [h.name], x ∈ h.name :: seen := by
        intro x hx
        rcases List.mem_append.1 hx with hx | hx
        · exact List.mem_cons_of_mem _ (hsub x hx)
        · simp only [List.mem_singleton] at hx
          simp [hx]
      simpa [addTagHosts, hmem] using ih _ _ hnd' hsub'

theorem expandTagsToHostsAux_nodup (cfg : ConfigFile) (args : List String)
    (seen expanded tags warns : List String)
    (hnd : expanded.Nodup) (hsub : ∀ x ∈ expanded, x ∈ seen) :
    (expandTagsToHostsAux cfg args seen expanded tags warns).1.Nodup := by
  induction args generalizing seen expanded tags warns with
  | nil => simpa [expandTagsToHostsAux] using hnd
  | cons arg rest ih =>
    by_cases hpre : hasAtPrefix arg
    · by_cases hempty : (cfg.FindHostsByTag (trimAtPrefix arg)).isEmpty
      · simp only [expandTagsToHostsAux, hpre, hempty, if_true]
        exact ih _ _ _ _ hnd hsub
      · have hinv := addTagHosts_invariant (cfg.FindHostsByTag (trimAtPrefix arg))
          seen expanded hnd hsub
        simp only [expandTagsToHostsAux, hpre, hempty, if_true, if_false,
          Bool.false_eq_true]
        exact ih _ _ _ _ hinv.1 hinv.2
    · by_cases hmem : arg ∈ seen
      · simp only [expandTagsToHostsAux, hpre, hmem, if_true, if_false,
          Bool.false_eq_true]
        exact ih _ _ _ _ hnd hsub
      · have hnotin : arg ∉ expanded := fun hx => hmem (hsub _ hx)
        have hnd' : (expanded ++ [arg]).Nodup := by
          simp [List.nodup_append, hnd, hnotin]
        have hsub' : ∀ x ∈ expanded ++ [arg], x ∈ arg :: seen := by
          intro x hx
          rcases List.mem_append.1 hx with hx | hx
          · exact List.mem_cons_of_mem _ (hsub x hx)
          · simp only [List.mem_singleton] at hx
            simp [hx]
        simp only [expandTagsToHostsAux, hpre, hmem, if_true, if_false,
          Bool.false_eq_true]
        exact ih _ _ _ _ hnd' hsub'

/-- The example catalog whose web group holds h1 and h2. -/
def cfgWeb : ConfigFile :=
  { hosts := [{ name := "h1", host := "10.0.0.1", port := 22, tags := ["web"] },
              { name := "h2", host := "10.0.0.2", port := 22, tags := ["web"] }],
    users := [], autoCreate := false }

/-- The example catalog in which no host carries the tag named empty. -/
def cfgNoMembers : ConfigFile :=
  { hosts := [{ name := "db1", host := "10.0.0.3", port := 22, tags := ["db"] }],
    users := [], autoCreate := false }

/-- C4: tag expansion replaces each tag-marked token by the catalog members of
that tag, preserves order of first appearance, never emits a duplicate
resolved name, and a tag with no members contributes no tokens while emitting
exactly one warning and the tag name, without failing.  The two concrete
scenarios of the specification are computed exactly. -/
theorem expandTagsToHosts_spec :
    (∀ (cfg : ConfigFile) (args : List String),
      (expandTagsToHosts cfg args).1.Nodup)
    ∧ expandTagsToHosts cfgWeb ["@web", "db1"] = (["h1", "h2", "db1"], ["web"], [])
    ∧ expandTagsToHosts cfgNoMembers ["@empty"] = ([], ["empty"], ["empty"]) := by
  refine ⟨?_, by decide, by decide⟩
  intro cfg args
  exact expandTagsToHostsAux_nodup cfg args [] [] [] [] (by simp) (by simp)

theorem eq_empty_of_length_zero {s : String} (h : s.length = 0) : s = "" := by
  cases s with
  | mk d =>
    have hd : d = [] := List.length_eq_zero.mp (by simpa [String.length] using h)
    subst hd
    rfl

theorem if_length_pos (s : String) : (if s.length > 0 then s else "") = s := by
  by_cases h : s.length > 0
  · simp [h]
  · have hs : s = "" := eq_empty_of_length_zero (by omega)
    subst hs
    simp

/-- C5: the session engine returns the full stdout sink followed by any
stderr content as the combined output; a remote exit (status zero or not) is
returned as that numeric status with no error; every transport-level failure
(config creation, dial, session creation, or a non-exit run failure) yields
status -1 together with an error. -/
theorem executeCommandWithOutput_spec :
    (∀ env : SessionEnv, env.configErr = none → env.dialErr = none → env.sessionErr = none →
      (executeCommandWithOutput env).1 = env.stdoutData ++ env.stderrData
      ∧ (env.run = RunOutcome.ok →
          executeCommandWithOutput env = (env.stdoutData ++ env.stderrData, 0, none))
      ∧ (∀ st, env.run = RunOutcome.exitError st →
          executeCommandWithOutput env = (env.stdoutData ++ env.stderrData, st, none)))
    ∧ (∀ env : SessionEnv,
        (env.configErr.isSome ∨ env.dialErr.isSome ∨ env.sessionErr.isSome
          ∨ (∃ m, env.run = RunOutcome.otherError m)) →
        (executeCommandWithOutput env).2.1 = -1
          ∧ ((executeCommandWithOutput env).2.2).isSome) := by
  constructor
  · intro env h1 h2 h3
    refine ⟨?_, ?_, ?_⟩
    · unfold executeCommandWithOutput
      rw [h1, h2, h3]
      cases env.run <;> simp [if_length_pos]
    · intro hr
      unfold executeCommandWithOutput
      rw [h1, h2, h3, hr]
      simp [if_length_pos]
    · intro st hr
      unfold executeCommandWithOutput
      rw [h1, h2, h3, hr]
      simp [if_length_pos]
  · intro env hdisj
    unfold executeCommandWithOutput
    cases hc : env.configErr with
    | some e => simp
    | none =>
      cases hd : env.dialErr with
      | some e => simp
      | none =>
        cases hs : env.sessionErr with
        | some e => simp
        | none =>
          cases hr : env.run with
          | ok => rcases hdisj with h | h | h | ⟨m, h⟩ <;> simp_all
          | exitError st => rcases hdisj with h | h | h | ⟨m, h⟩ <;> simp_all
          | otherError m => simp

/-- C5 witness: a clean nonzero remote exit combines both sinks and returns
status 3 without error, while a dial failure returns status -1 with an error. -/
theorem executeCommandWithOutput_spec_witness :
    (executeCommandWithOutput
        (SessionEnv.mk none none none "out" "err" (RunOutcome.exitError 3))).1
      = "out" ++ "err"
    ∧ (executeCommandWithOutput
        (SessionEnv.mk none (some "boom") none "" "" RunOutcome.ok)).2.1 = -1
    ∧ ((executeCommandWithOutput
        (SessionEnv.mk none (some "boom") none "" "" RunOutcome.ok)).2.2).isSome := by
  have h1 := (executeCommandWithOutput_spec.1
    (SessionEnv.mk none none none "out" "err" (RunOutcome.exitError 3)) rfl rfl rfl).1
  have h2 := executeCommandWithOutput_spec.2
    (SessionEnv.mk none (some "boom") none "" "" RunOutcome.ok)
    (Or.inr (Or.inl (by decide)))
  exact ⟨h1, h2.1, h2.2⟩

/-- C6: every failing relayed dial (relay-stage or endpoint-stage) returns
with both the logical channel and the relay connection closed, and no further
logical channels can be opened on the relay connection. -/
theorem dial_closes_on_failure (env : DialEnv)
    (h : ((dialViaJump env).1).isSome) :
    (dialViaJump env).2.jumpOpen = false
    ∧ (dialViaJump env).2.connOpen = false
    ∧ canOpenChannel (dialViaJump env).2 = false := by
  unfold dialViaJump at h ⊢
  by_cases h1 : env.jumpDialOk <;> by_cases h2 : env.targetChannelOk <;>
    by_cases h3 : env.handshakeOk <;>
    simp [h1, h2, h3, closeJump, closeConn, canOpenChannel] at h ⊢

/-- C6 witness: the theorem at the concrete run in which the relay dial and
the logical channel succeed but the endpoint handshake fails. -/
theorem dial_closes_on_failure_witness :
    (dialViaJump (DialEnv.mk true true false)).2.jumpOpen = false
    ∧ (dialViaJump (DialEnv.mk true true false)).2.connOpen = false
    ∧ canOpenChannel (dialViaJump (DialEnv.mk true true false)).2 = false :=
  dial_closes_on_failure (DialEnv.mk true true false) (by decide)

/-- C7 counterexample: the relay worker's deferred cleanup performs an atomic
add of -1 on activeConns while the relay is running, so after a connection is
accepted and its worker exits, activeConns is strictly below its mid-trace
value — the four counters are not all monotonically non-decreasing. -/
theorem relay_activeConns_decreases :
    (runOps (Counters.mk 0 0 0 0)
        [CounterOp.incTotal, CounterOp.incActive, CounterOp.decActive]).activeConns
      < (runOps (Counters.mk 0 0 0 0)
        [CounterOp.incTotal, CounterOp.incActive]).activeConns := by decide

/-- C7 amended: every counter mutation is an atomic single-field operation;
totalConns, bytesSent and bytesReceived are monotonically non-decreasing over
every trace whose copied byte counts are non-negative, while activeConns is
decremented by exactly one when a relay worker exits. -/
theorem relay_counters_amended :
    (∀ (c : Counters) (ops : List CounterOp),
      (∀ n : Int, CounterOp.addSent n ∈ ops → 0 ≤ n) →
      (∀ n : Int, CounterOp.addReceived n ∈ ops → 0 ≤ n) →
      c.totalConns ≤ (runOps c ops).totalConns
      ∧ c.bytesSent ≤ (runOps c ops).bytesSent
      ∧ c.bytesReceived ≤ (runOps c ops).bytesReceived)
    ∧ (∀ c : Counters, applyOp c CounterOp.decActive
        = { c with activeConns := c.activeConns - 1 })
    ∧ (∀ c : Counters, applyOp c CounterOp.incTotal
        = { c with totalConns := c.totalConns + 1 })
    ∧ (∀ (c : Counters) (n : Int), applyOp c (CounterOp.addSent n)
        = { c with bytesSent := c.bytesSent + n }) := by
  refine ⟨?_, fun c => rfl, fun c => rfl, fun c n => rfl⟩
  intro c ops
  induction ops generalizing c with
  | nil => exact fun _ _ => ⟨le_refl _, le_refl _, le_refl _⟩
  | cons op rest ih =>
    intro hs hr
    have hs' : ∀ n : Int, CounterOp.addSent n ∈ rest → 0 ≤ n :=
      fun n hn => hs n (List.mem_cons_of_mem _ hn)
    have hr' : ∀ n : Int, CounterOp.addReceived n ∈ rest → 0 ≤ n :=
      fun n hn => hr n (List.mem_cons_of_mem _ hn)
    have step := ih (applyOp c op) hs' hr'
    have hrun : runOps c (op :: rest) = runOps (applyOp c op) rest := rfl
    rw [hrun]
    have hfirst : c.totalConns ≤ (applyOp c op).totalConns
        ∧ c.bytesSent ≤ (applyOp c op).bytesSent
        ∧ c.bytesReceived ≤ (applyOp c op).bytesReceived := by
      cases op with
      | incTotal => simp [applyOp]
      | incActive => simp [applyOp]
      | decActive => simp [applyOp]
      | addSent n =>
        have := hs n (by simp)
        simp [applyOp]
        omega
      | addReceived n =>
        have := hr n (by simp)
        simp [applyOp]
        omega
    exact ⟨le_trans hfirst.1 step.1, le_trans hfirst.2.1 step.2.1,
      le_trans hfirst.2.2 step.2.2⟩

/-- C7 amended witness: the monotone part applied to a concrete trace of one
accepted, completed connection that copied five bytes up and two down. -/
theorem relay_counters_amended_witness :
    (Counters.mk 0 0 0 0).totalConns
      ≤ (runOps (Counters.mk 0 0 0 0)
          [CounterOp.incTotal, CounterOp.incActive, CounterOp.addSent 5,
           CounterOp.addReceived 2, CounterOp.decActive]).totalConns
    ∧ (Counters.mk 0 0 0 0).bytesSent
      ≤ (runOps (Counters.mk 0 0 0 0)
          [CounterOp.incTotal, CounterOp.incActive, CounterOp.addSent 5,
           CounterOp.addReceived 2, CounterOp.decActive]).bytesSent
    ∧ (Counters.mk 0 0 0 0).bytesReceived
      ≤ (runOps (Counters.mk 0 0 0 0)
          [CounterOp.incTotal, CounterOp.incActive, CounterOp.addSent 5,
           CounterOp.addReceived 2, CounterOp.decActive]).bytesReceived :=
  relay_counters_amended.1 (Counters.mk 0 0 0 0)
    [CounterOp.incTotal, CounterOp.incActive, CounterOp.addSent 5,
     CounterOp.addReceived 2, CounterOp.decActive]
    (by intro n hn; simp at hn; omega)
    (by intro n hn; simp at hn; omega)

/-- The host and port resolution prefix shared by Connect and executeOnHost:
the catalog entry's stored address and port when the token names one,
otherwise the direct-string parse. -/
def resolveHostPort (cfg : ConfigFile) (hostArg : String) (effectiveUser : Option User)
    (systemUser : Option String) : Option (String × Int) :=
  match cfg.FindHost hostArg with
  | some h => some (h.host, h.port)
  | none =>
    match (parseDirectConnection hostArg effectiveUser systemUser).1 with
    | some ph => some (ph.hostname, ph.port)
    | none => none

/-- A catalog whose entry x stores port 0 (as a YAML record with the port
field omitted deserializes). -/
def cfgBadPort : ConfigFile :=
  { hosts := [{ name := "x", host := "10.0.0.9", port := 0, tags := [] }],
    users := [], autoCreate := false }

/-- C8 counterexample: resolution by catalog lookup copies the stored port
with no validation, so the catalog entry with port 0 resolves to port 0,
outside the range 1 to 65535. -/
theorem catalog_port_unvalidated :
    resolveHostPort cfgBadPort "x" none none = some ("10.0.0.9", 0)
    ∧ ¬(1 ≤ (0 : Int)) := by decide

/-- C8 amended: every endpoint resolved through direct-string parsing has a
port in the range 1 to 65535 (22 when the token has no port), but an endpoint
resolved by catalog lookup uses the stored catalog port unvalidated. -/
theorem resolved_port_range_amended :
    (∀ (input : String) (eu : Option User) (su : Option String) (ph : ParsedHost),
      (parseDirectConnection input eu su).1 = some ph →
        1 ≤ ph.port ∧ ph.port ≤ 65535)
    ∧ (∀ (cfg : ConfigFile) (name : String) (eu : Option User) (su : Option String)
        (h : Host), cfg.FindHost name = some h →
        resolveHostPort cfg name eu su = some (h.host, h.port)) := by
  constructor
  · intro input eu su ph hph
    exact (parse_success_bounds input eu su ph hph).2
  · intro cfg name eu su h hfind
    unfold resolveHostPort
    rw [hfind]

/-- C8 amended witness: the parse branch at the concrete token h with no
port, and the catalog branch at the port-0 catalog. -/
theorem resolved_port_range_amended_witness :
    (1 ≤ (ParsedHost.mk "sys" "h" 22).port ∧ (ParsedHost.mk "sys" "h" 22).port ≤ 65535)
    ∧ resolveHostPort cfgBadPort "x" none none
      = some ((Host.mk "x" "10.0.0.9" 0 []).host, (Host.mk "x" "10.0.0.9" 0 []).port) :=
  ⟨resolved_port_range_amended.1 "h" none (some "sys") (ParsedHost.mk "sys" "h" 22)
      (by decide),
   resolved_port_range_amended.2 cfgBadPort "x" none none (Host.mk "x" "10.0.0.9" 0 [])
      (by decide)⟩

/-- C9: when the token carries an explicit user different from the effective
user, resolution uses that explicit user and performs a secondary catalog
lookup for that user's own keys; a user unknown to the catalog gets an empty
key list — the effective user's keys are never reused for the other identity. -/
theorem explicit_user_credentials (cfg : ConfigFile) (home : String) (eu : User)
    (ph : ParsedHost) (h1 : ph.parsedUser ≠ "") (h2 : ph.parsedUser ≠ eu.name) :
    (resolveUserAndKeys cfg home eu ph).1 = ph.parsedUser
    ∧ (cfg.FindUser ph.parsedUser = none → (resolveUserAndKeys cfg home eu ph).2 = [])
    ∧ (∀ cu, cfg.FindUser ph.parsedUser = some cu →
        (resolveUserAndKeys cfg home eu ph).2 = cu.sshKeys.map (expandHomePath home)) := by
  unfold resolveUserAndKeys
  rw [if_pos ⟨h1, h2⟩]
  cases hfu : cfg.FindUser ph.parsedUser with
  | none => simp
  | some cu => simp

/-- C9 witness: the theorem at an explicit user bob unknown to a catalog that
only knows alice, with alice as the effective user. -/
theorem explicit_user_credentials_witness :
    (resolveUserAndKeys
        (ConfigFile.mk [] [User.mk "alice" ["~/id"]] false) "/home/alice"
        (User.mk "alice" ["~/id"]) (ParsedHost.mk "bob" "10.0.0.5" 22)).1 = "bob"
    ∧ ((ConfigFile.mk [] [User.mk "alice" ["~/id"]] false).FindUser "bob" = none →
        (resolveUserAndKeys
          (ConfigFile.mk [] [User.mk "alice" ["~/id"]] false) "/home/alice"
          (User.mk "alice" ["~/id"]) (ParsedHost.mk "bob" "10.0.0.5" 22)).2 = []) := by
  have h := explicit_user_credentials
    (ConfigFile.mk [] [User.mk "alice" ["~/id"]] false) "/home/alice"
    (User.mk "alice" ["~/id"]) (ParsedHost.mk "bob" "10.0.0.5" 22)
    (by decide) (by decide)
  exact ⟨h.1, h.2.1⟩

theorem string_data_append (s t : String) : (s ++ t).data = s.data ++ t.data := by
  cases s
  cases t
  rfl

theorem append_ne_empty_left (s t : String) (h : s.data ≠ []) : s ++ t ≠ "" := by
  intro hc
  have h2 := congrArg String.data hc
  rw [string_data_append] at h2
  exact h (List.append_eq_nil.mp h2).1

theorem data_ne_nil_of_ne_empty {s : String} (h : s ≠ "") : s.data ≠ [] := by
  intro hc
  apply h
  cases s with
  | mk d =>
    have hd : d = [] := hc
    subst hd
    rfl

theorem execErr_ne_empty (env : SessionEnv) (msg : String)
    (h : (executeCommandWithOutput env).2.2 = some msg) : msg ≠ "" := by
  unfold executeCommandWithOutput at h
  cases hc : env.configErr with
  | some e =>
    rw [hc] at h
    simp at h
    rw [← h]
    exact append_ne_empty_left _ _ (by decide)
  | none =>
    rw [hc] at h
    cases hd : env.dialErr with
    | some e =>
      rw [hd] at h
      simp at h
      rw [← h]
      exact append_ne_empty_left _ _ (by decide)
    | none =>
      rw [hd] at h
      cases hs : env.sessionErr with
      | some e =>
        rw [hs] at h
        simp at h
        rw [← h]
        exact append_ne_empty_left _ _ (by decide)
      | none =>
        rw [hs] at h
        cases hr : env.run with
        | ok => rw [hr] at h; simp at h
        | exitError st => rw [hr] at h; simp at h
        | otherError m =>
          rw [hr] at h
          simp at h
          rw [← h]
          exact append_ne_empty_left _ _ (by decide)

theorem runHostCommand_error_nonempty (world : String → SessionEnv) (t : String)
    (keys : List String) (hn : String) (p : Int) (sac : Bool) (pw : String) (ask : Bool)
    (hfail : (runHostCommand world t keys hn p sac pw ask).success = false) :
    (runHostCommand world t keys hn p sac pw ask).error ≠ "" := by
  unfold runHostCommand at hfail ⊢
  rcases he : executeCommandWithOutput (world t) with ⟨out, code, err⟩
  rw [he] at hfail
  cases err with
  | none => simp at hfail
  | some msg =>
    have hm : msg ≠ "" := execErr_ne_empty (world t) msg (by rw [he])
    show (if !ask && pw = "" && keys.isEmpty then
            msg ++ " (DICA: Use a opcao -a ou --ask-password para fornecer senha)"
          else if !ask && pw = "" && !keys.isEmpty then
            msg ++ " (DICA: Se a chave SSH nao estiver instalada, use -a para fornecer senha)"
          else msg) ≠ ""
    split
    · exact append_ne_empty_left _ _ (data_ne_nil_of_ne_empty hm)
    · split
      · exact append_ne_empty_left _ _ (data_ne_nil_of_ne_empty hm)
      · exact hm

theorem executeOnHost_success_eq (cfg : ConfigFile) (home : String)
    (world : String → SessionEnv) (eu : User) (su : Option String)
    (pw : String) (ask : Bool) (t : String) :
    (executeOnHost cfg home world eu su pw ask t).success
      = hostSucceeds cfg world eu su t := by
  unfold executeOnHost hostSucceeds hostResolves runHostCommand
  rcases he : executeCommandWithOutput (world t) with ⟨out, code, err⟩
  cases hf : cfg.FindHost t with
  | some host => cases err <;> simp
  | none =>
    rcases hpe : parseDirectConnection t (some eu) su with ⟨a, b⟩
    cases a with
    | none => simp
    | some ph => cases err <;> simp

theorem executeOnHost_error_nonempty (cfg : ConfigFile) (home : String)
    (world : String → SessionEnv) (eu : User) (su : Option String)
    (pw : String) (ask : Bool) (t : String)
    (hfail : (executeOnHost cfg home world eu su pw ask t).success = false) :
    (executeOnHost cfg home world eu su pw ask t).error ≠ "" := by
  revert hfail
  unfold executeOnHost
  cases hf : cfg.FindHost t with
  | some host =>
    intro hfail
    exact runHostCommand_error_nonempty world t _ _ _ _ pw ask hfail
  | none =>
    rcases hpe : parseDirectConnection t (some eu) su with ⟨a, b⟩
    cases a with
    | none =>
      intro hfail
      exact append_ne_empty_left _ _ (by decide)
    | some ph =>
      intro hfail
      exact runHostCommand_error_nonempty world t _ _ _ _ pw ask hfail

/-- C1: the fan-out over an arbitrary completion order of the expanded,
deduplicated tokens returns exactly one result per token (the count is that
of the expanded token list, independent of completion order), the returned
multiset is exactly the per-token results, a result is successful exactly
when that token's resolution and command execution succeed, and every failed
result carries a nonempty error detail — no worker failure removes a sibling
result. -/
theorem connectMultiple_isolates_and_counts (cfg : ConfigFile) (home : String)
    (world : String → SessionEnv) (eu : User) (su : Option String)
    (pw : String) (ask : Bool) (args order : List String)
    (hperm : order.Perm (expandTagsToHosts cfg args).1) :
    (connectMultipleResults cfg home world eu su pw ask order).length
        = (expandTagsToHosts cfg args).1.length
    ∧ (connectMultipleResults cfg home world eu su pw ask order).Perm
        ((expandTagsToHosts cfg args).1.map (executeOnHost cfg home world eu su pw ask))
    ∧ (connectMultipleResults cfg home world eu su pw ask order).countP
          (fun r => r.success)
        = (expandTagsToHosts cfg args).1.countP
          (fun t => hostSucceeds cfg world eu su t)
    ∧ (∀ t, (executeOnHost cfg home world eu su pw ask t).success
        = hostSucceeds cfg world eu su t)
    ∧ (∀ r ∈ connectMultipleResults cfg home world eu su pw ask order,
        r.success = false → r.error ≠ "") := by
  refine ⟨?_, ?_, ?_, ?_, ?_⟩
  · unfold connectMultipleResults
    rw [List.length_map]
    exact hperm.length_eq
  · unfold connectMultipleResults
    exact hperm.map _
  · unfold connectMultipleResults
    rw [List.countP_map]
    have hfun : ((fun r : HostResult => r.success)
          ∘ (executeOnHost cfg home world eu su pw ask))
        = fun t => hostSucceeds cfg world eu su t :=
      funext fun t => executeOnHost_success_eq cfg home world eu su pw ask t
    rw [hfun]
    exact hperm.countP_eq _
  · exact fun t => executeOnHost_success_eq cfg home world eu su pw ask t
  · intro r hr hfail
    obtain ⟨t, ht, rfl⟩ := List.mem_map.1 hr
    exact executeOnHost_error_nonempty cfg home world eu su pw ask t hfail

/-- The example world in which h1's dial fails and every other host runs the
command cleanly. -/
def worldW : String → SessionEnv :=
  fun t =>
    if t = "h1" then SessionEnv.mk none (some "down") none "" "" RunOutcome.ok
    else SessionEnv.mk none none none "out" "" RunOutcome.ok

/-- C1 witness: the theorem at the concrete web catalog, a completion order
that reverses submission order, and a world in which exactly one host fails. -/
theorem connectMultiple_isolates_and_counts_witness :
    (connectMultipleResults cfgWeb "/home/u" worldW (User.mk "alice" []) none "" false
        ["db1", "h2", "h1"]).length
      = (expandTagsToHosts cfgWeb ["@web", "db1"]).1.length
    ∧ (connectMultipleResults cfgWeb "/home/u" worldW (User.mk "alice" []) none "" false
        ["db1", "h2", "h1"]).countP (fun r => r.success)
      = (expandTagsToHosts cfgWeb ["@web", "db1"]).1.countP
          (fun t => hostSucceeds cfgWeb worldW (User.mk "alice" []) none t) := by
  have h := connectMultiple_isolates_and_counts cfgWeb "/home/u" worldW
    (User.mk "alice" []) none "" false ["@web", "db1"] ["db1", "h2", "h1"]
    (by
      rw [show (expandTagsToHosts cfgWeb ["@web", "db1"]).1 = ["h1", "h2", "db1"] from
        by decide]
      exact List.reverse_perm ["h1", "h2", "db1"])
  exact ⟨h.1, h.2.2.1⟩

/-- C10: every client configuration the dialer builds — the current engine's
target configuration, the jump-host configuration built inside dial, and the
legacy engine's configuration — sets the host-key callback to the
accept-anything policy, under which no presented server host key is ever
rejected. -/
theorem host_key_never_verified :
    (∀ (env : AuthEnv) (s : SSHConnection),
      (createSSHConfigWithContext env s).hostKeyCallback
        = HostKeyPolicy.insecureIgnoreHostKey)
    ∧ (∀ (env : AuthEnv) (s : SSHConnection) (jh : JumpHost),
      (jumpClientConfig env s jh).hostKeyCallback
        = HostKeyPolicy.insecureIgnoreHostKey)
    ∧ (∀ (env : AuthEnv) (user sshKey : String) (cc : ClientConfig),
      legacyCreateSSHConfig env user sshKey = some cc →
        cc.hostKeyCallback = HostKeyPolicy.insecureIgnoreHostKey)
    ∧ (∀ key : String,
        hostKeyAccepts HostKeyPolicy.insecureIgnoreHostKey key = true) := by
  refine ⟨fun env s => rfl, fun env s jh => rfl, ?_, fun key => rfl⟩
  intro env user sshKey cc h
  unfold legacyCreateSSHConfig at h
  cases hka : legacyKeyAuth env sshKey with
  | none => rw [hka] at h; exact absurd h (by simp)
  | some ka =>
    rw [hka] at h
    injection h with h2
    subst h2
    rfl

/-- The example environment with no readable key files and no agent. -/
def authEnvW : AuthEnv := AuthEnv.mk (fun _ => none) (fun _ => none) false

/-- C10 witness: the legacy conjunct applied at a concrete environment and an
empty key path, plus a concrete host key being accepted. -/
theorem host_key_never_verified_witness :
    (ClientConfig.mk "u" [AuthMethod.passwordCallback]
        HostKeyPolicy.insecureIgnoreHostKey).hostKeyCallback
      = HostKeyPolicy.insecureIgnoreHostKey
    ∧ hostKeyAccepts HostKeyPolicy.insecureIgnoreHostKey "some-presented-key" = true :=
  ⟨host_key_never_verified.2.2.1 authEnvW "u" ""
      (ClientConfig.mk "u" [AuthMethod.passwordCallback]
        HostKeyPolicy.insecureIgnoreHostKey) rfl,
   host_key_never_verified.2.2.2 "some-presented-key"⟩

end SSHControl
